import Mathlib

/-!
A shallow embedding of the tapzero test library (src/index.ts and its
vendored copy of fast-deep-equal, src/fast-deep-equal.js).

JavaScript values handled by the library are modelled by `JSValue`.
Object-like values carry a `ref : Nat`, the identity of the heap cell the
value lives in: JavaScript's `===` on two object-like values holds exactly
when they are the same cell, which the model renders as equality of the
refs.  Coercion overrides (`valueOf` / `toString` own or prototype methods
distinct from `Object.prototype`'s) are carried next to the fields, the way
a non-enumerable or prototype-level override sits outside `Object.keys`.
Numbers are modelled as integers plus the NaN sentinel; the claims under
study only compare numbers for strict equality and self-inequality (NaN),
which this carries faithfully.
-/

/-- A JavaScript number as the library observes it: either NaN (the one
value with `x !== x`) or an ordinary numeric value. -/
inductive JSNum where
  | nan
  | fin (v : Int)
deriving DecidableEq, Repr

/-- A JavaScript value reachable by the library's comparator and
serializer.  `arr` is an Array, `regex` a RegExp (source and flags),
`errv` an Error (message and stack text), `object` any other object:
its constructor's name (`"Object"` for plain objects; the builtin names
Array/RegExp/Error stand only for their own kinds), an optional `valueOf`
override summarised by the value it returns, an optional `toString`
override summarised by the string it returns, and the own enumerable
fields in insertion order. -/
inductive JSValue where
  | undef
  | null
  | bool (b : Bool)
  | num (n : JSNum)
  | str (s : String)
  | arr (ref : Nat) (elems : List JSValue)
  | regex (ref : Nat) (source : String) (flags : String)
  | errv (ref : Nat) (message : String) (stack : String)
  | object (ref : Nat) (ctor : String) (vOv : Option JSValue)
      (sOv : Option String) (fields : List (String × JSValue))

/-- `x !== x`: true only of NaN. -/
def jsNaN : JSValue → Bool
  | .num .nan => true
  | _ => false

/-- `===` on two numbers: NaN is unequal to everything, itself
included. -/
def numEq : JSNum → JSNum → Bool
  | .fin a, .fin b => a == b
  | _, _ => false

/-- JavaScript `a === b` on modelled values: value equality on primitives
(with NaN unequal to everything, itself included), heap-cell identity on
object-like values. -/
def strictEq : JSValue → JSValue → Bool
  | .undef, .undef => true
  | .null, .null => true
  | .bool a, .bool b => a == b
  | .num a, .num b => numEq a b
  | .str a, .str b => a == b
  | .arr r _, .arr r2 _ => r == r2
  | .regex r _ _, .regex r2 _ _ => r == r2
  | .errv r _ _, .errv r2 _ _ => r == r2
  | .object r _ _ _ _, .object r2 _ _ _ _ => r == r2
  | _, _ => false

/-- `String(err)` for an Error: `Error.prototype.toString`. -/
def errToString (m : String) : String :=
  if m == "" then "Error" else "Error: " ++ m

/-- Membership of a key in a key list (`hasOwnProperty` over the keys). -/
def keyMem (k : String) : List String → Bool
  | [] => false
  | k2 :: ks => k == k2 || keyMem k ks

/-- Every key of the fields appears among `ks`: the comparator's
`hasOwnProperty.call(b, keys[i])` loop. -/
def fieldsSub : List (String × JSValue) → List String → Bool
  | [], _ => true
  | (k, _) :: fs, ks => keyMem k ks && fieldsSub fs ks

/-- `b[key]` on a plain object: the first field with that key, `undefined`
when absent. -/
def getField : List (String × JSValue) → String → JSValue
  | [], _ => .undef
  | (k, v) :: fs, key => if k == key then v else getField fs key

mutual

/-- `deepEqual(a, b)` from src/fast-deep-equal.js (fast-deep-equal@3.1.1):
identity short-circuit, then for two object-like values of one
constructor the array / RegExp / valueOf-override / toString-override /
plain-structure branches in that order, and for anything else the
`a !== a && b !== b` NaN fallback. -/
def deepEqual (a b : JSValue) : Bool :=
  if strictEq a b then true else deepEqualBody a b
termination_by (sizeOf a, 1)

/-- The comparator after the `a === b` short-circuit failed. -/
def deepEqualBody : JSValue → JSValue → Bool
  | .arr _ ea, .arr _ eb => (ea.length == eb.length) && deepEqualList ea eb
  | .regex _ s f, .regex _ s2 f2 => s == s2 && f == f2
  | .errv _ m _, .errv _ m2 _ => errToString m == errToString m2
  | .object _ra ca voa soa fsa, .object rb cb vob sob fsb =>
    if ca != cb then false
    else
      match voa with
      | some w =>
        strictEq w (match vob with
          | some w2 => w2
          | none => .object rb cb vob sob fsb)
      | none =>
        match soa with
        | some s =>
          s == (match sob with
            | some s2 => s2
            | none => "[object Object]")
        | none =>
          (fsa.length == fsb.length)
          && fieldsSub fsa (fsb.map Prod.fst)
          && deepEqualFields fsa fsb
  | x, y => jsNaN x && jsNaN y
termination_by a _ => (sizeOf a, 0)

/-- Element-wise comparison of two arrays (the comparator walks the
indices; the conjunction of the element comparisons is the result). -/
def deepEqualList : List JSValue → List JSValue → Bool
  | [], ys => ys.isEmpty
  | _ :: _, [] => false
  | x :: xs, y :: ys => deepEqual x y && deepEqualList xs ys
termination_by xs _ => (sizeOf xs, 0)

/-- Recursive comparison of every field of `a` against the same key of
`b` (the comparator's final loop over `Object.keys(a)`). -/
def deepEqualFields : List (String × JSValue) → List (String × JSValue) → Bool
  | [], _ => true
  | (k, v) :: fs, fsb => deepEqual v (getField fsb k) && deepEqualFields fs fsb
termination_by fs _ => (sizeOf fs, 0)

end

/-- No key occurs twice: every `Object.keys` result is such a list, so a
modelled value standing for a real JavaScript object satisfies this. -/
def nodupKeys : List String → Bool
  | [] => true
  | k :: ks => !(keyMem k ks) && nodupKeys ks

mutual

/-- Well-formed and coercion-override-free: the value (hereditarily) has
no `valueOf`/`toString` override and no duplicate field keys. -/
def wfV : JSValue → Bool
  | .arr _ es => wfL es
  | .object _ _ vo so fs =>
    vo.isNone && so.isNone && nodupKeys (fs.map Prod.fst) && wfF fs
  | _ => true
termination_by v => sizeOf v

def wfL : List JSValue → Bool
  | [] => true
  | x :: xs => wfV x && wfL xs
termination_by xs => sizeOf xs

def wfF : List (String × JSValue) → Bool
  | [] => true
  | (_, v) :: fs => wfV v && wfF fs
termination_by fs => sizeOf fs

end

/-- One hexadecimal digit, lower case. -/
def hexDigitChar (n : Nat) : Char :=
  if n < 10 then Char.ofNat (48 + n) else Char.ofNat (87 + n % 16)

/-- JSON escaping of one character, as `JSON.stringify` performs it. -/
def escapeChar (c : Char) : String :=
  if c = '"' then "\\\""
  else if c = '\\' then "\\\\"
  else if c = '\n' then "\\n"
  else if c = '\t' then "\\t"
  else if c = '\r' then "\\r"
  else if c = Char.ofNat 8 then "\\b"
  else if c = Char.ofNat 12 then "\\f"
  else if c.toNat < 32 then
    "\\u00" ++ String.mk [hexDigitChar (c.toNat / 16), hexDigitChar (c.toNat % 16)]
  else String.singleton c

/-- A JSON string literal for `s`. -/
def quoteStr (s : String) : String :=
  "\"" ++ String.join (s.data.map escapeChar) ++ "\""

/-- `n` copies of the two-space gap `JSON.stringify(_, _, '  ')` indents
with. -/
def gap (n : Nat) : String :=
  String.join (List.replicate n "  ")

mutual

/-- `JSON.stringify(v, null, '  ')`: `none` when stringify yields no text
(the value is `undefined`); `NaN` serializes as `null`, a RegExp or an
Error as `\x7b\x7d` (no own enumerable properties), an object by its own
enumerable fields, two-space indented.  `lvl` is the nesting depth. -/
def jsonPretty (lvl : Nat) : JSValue → Option String
  | .undef => none
  | .null => some "null"
  | .bool b => some (if b then "true" else "false")
  | .num .nan => some "null"
  | .num (.fin v) => some (toString v)
  | .str s => some (quoteStr s)
  | .arr _ es =>
    some (if es.isEmpty then "[]"
      else "[\n" ++ String.intercalate ",\n" (jsonPrettyItems (lvl + 1) es)
        ++ "\n" ++ gap lvl ++ "]")
  | .regex _ _ _ => some "\x7b\x7d"
  | .errv _ _ _ => some "\x7b\x7d"
  | .object _ _ _ _ fs =>
    some (let entries := jsonPrettyEntries (lvl + 1) fs
      if entries.isEmpty then "\x7b\x7d"
      else "\x7b\n" ++ String.intercalate ",\n" entries
        ++ "\n" ++ gap lvl ++ "\x7d")
termination_by v => (sizeOf v, 0)

/-- The serialized elements of an array, each on its own indented line;
an `undefined` element serializes as `null`. -/
def jsonPrettyItems (lvl : Nat) : List JSValue → List String
  | [] => []
  | e :: es =>
    (gap lvl ++ (jsonPretty lvl e).getD "null") :: jsonPrettyItems lvl es
termination_by es => (sizeOf es, 1)

/-- The serialized fields of an object; a field whose value does not
serialize (an `undefined` value) is dropped. -/
def jsonPrettyEntries (lvl : Nat) : List (String × JSValue) → List String
  | [] => []
  | (k, v) :: fs =>
    match jsonPretty lvl v with
    | none => jsonPrettyEntries lvl fs
    | some j => (gap lvl ++ quoteStr k ++ ": " ++ j) :: jsonPrettyEntries lvl fs
termination_by fs => (sizeOf fs, 1)

end

mutual

/-- The replacer of src/index.ts `toJSON`:
`(_k, v) => (v === undefined) ? '_tz_undefined_tz_' : v`, applied to every
value `JSON.stringify` visits. -/
def replaceUndef : JSValue → JSValue
  | .undef => .str "_tz_undefined_tz_"
  | .arr r es => .arr r (replaceUndefL es)
  | .object r c vo so fs => .object r c vo so (replaceUndefF fs)
  | v => v
termination_by v => (sizeOf v, 0)

def replaceUndefL : List JSValue → List JSValue
  | [] => []
  | e :: es => replaceUndef e :: replaceUndefL es
termination_by es => (sizeOf es, 1)

def replaceUndefF : List (String × JSValue) → List (String × JSValue)
  | [] => []
  | (k, v) :: fs => (k, replaceUndef v) :: replaceUndefF fs
termination_by fs => (sizeOf fs, 1)

end

/-- Global left-to-right non-overlapping replacement of `pat` by `rep`
over a character list, the behavior of `String.prototype.replace` with a
global literal pattern.  The fuel argument only bounds the recursion;
every step consumes at least one character, so fuel equal to the input's
length (as `jsReplaceAll` passes) never runs out. -/
def listReplace (pat rep : List Char) : Nat → List Char → List Char
  | _, [] => []
  | 0, l => l
  | fuel + 1, c :: cs =>
    if !pat.isEmpty && pat.isPrefixOf (c :: cs) then
      rep ++ listReplace pat rep fuel (List.drop (pat.length - 1) cs)
    else c :: listReplace pat rep fuel cs

/-- `s.replace(/pat/g, rep)` for a literal pattern. -/
def jsReplaceAll (s pat rep : String) : String :=
  String.mk (listReplace pat.data rep.data s.data.length s.data)

/-- `toJSON` of src/index.ts: `JSON.stringify` with the
`_tz_undefined_tz_` sentinel replacer and two-space indentation, the
`|| 'undefined'` fallback, then the global replacement of the quoted
sentinel by the bare token `undefined`. -/
def toJSON (thing : JSValue) : String :=
  let json := (jsonPretty 0 (replaceUndef thing)).getD "undefined"
  jsReplaceAll json "\"_tz_undefined_tz_\"" "undefined"

/-- The `expected:` and `actual:` lines of a failing assertion's
diagnostic block (src/index.ts lines 322-333): block-literal style with
six-space continuation indent when the longer serialized value runs over
65 characters (`Math.max(ex.length, ac.length) > 65`), inline otherwise.
Each entry is one `report(...)` call; the block style embeds newlines in
the reported line. -/
def diagValueLines (expected actual : JSValue) : List String :=
  let ex := toJSON expected
  let ac := toJSON actual
  if 65 < max ex.length ac.length then
    ["    expected: |-\n      " ++ jsReplaceAll ex "\n" "\n      ",
     "    actual:   |-\n      " ++ jsReplaceAll ac "\n" "\n      "]
  else
    ["    expected: " ++ ex, "    actual:   " ++ ac]

/-- JavaScript truthiness of a modelled value. -/
def truthy : JSValue → Bool
  | .undef => false
  | .null => false
  | .bool b => b
  | .num .nan => false
  | .num (.fin v) => v != 0
  | .str s => s != ""
  | _ => true

/-- `!msg` for an optional description: absent or empty is falsy. -/
def msgFalsy : Option String → Bool
  | none => true
  | some s => s == ""

/-- `msg || default`: the description when present and non-empty, the
default otherwise. -/
def orD (msg : Option String) (d : String) : String :=
  match msg with
  | some s => if s == "" then d else s
  | none => d

/-- JavaScript `typeof` of a modelled value. -/
def typeofStr : JSValue → String
  | .undef => "undefined"
  | .null => "object"
  | .bool _ => "boolean"
  | .num _ => "number"
  | .str _ => "string"
  | _ => "object"

/-- The environment-dependent pieces of a failing assertion's diagnostic
block: what `findAtLineFromError(atErr)` resolves (the empty string when
no external frame is found, in which case the `at:` line is omitted) and
the stack text of the freshly constructed `new Error(description)`.
Both come from the host's stack-trace format, outside the library. -/
structure DiagEnv where
  atLine : String
  atErrStack : String

/-- One call a test function makes on its `Test` argument, covering the
part of the assertion vocabulary the claims exercise.  A test function
is modelled as the list of such calls it performs in order. -/
inductive TestOp where
  | ok (actual : JSValue) (msg : Option String)
  | fail (msg : Option String)
  | deepEqualOp (actual expected : JSValue) (msg : Option String)
  | plan (n : Nat)
  | comment (msg : String)

/-- The `Test` class: its name, the modelled test function, and the
mutable state `constructor` initialises (src/index.ts lines 167-179):
`_planned = null`, `_actual = null`, `_result = ⟨0, 0⟩`, `done = false`,
`strict` inherited from the runner. -/
structure Test where
  name : String
  ops : List TestOp
  _planned : Option Nat
  _actual : Option Nat
  passCount : Nat
  failCount : Nat
  done : Bool
  strict : Bool

/-- `new Test(name, fn, runner)`. -/
def Test.mk0 (name : String) (ops : List TestOp) (strict : Bool) : Test :=
  ⟨name, ops, none, none, 0, 0, false, strict⟩

/-- The state a running test touches through its runner: the runner's
assertion id counter `_id` and the lines written to the injected sink so
far, plus the test's own state. -/
structure RunCtx where
  _id : Nat
  out : List String
  t : Test

/-- Outcome of a stateful step: a normal result, or a thrown error
carrying the state at the throw (lines already written to the sink
stay written). -/
inductive Res (σ : Type) where
  | ok (s : σ)
  | fatal (msg : String) (s : σ)

/-- `Test._assert` (src/index.ts lines 281-348): fatal after `done`;
under a declared plan increment `_actual` and fatal when it exceeds the
plan before reporting anything; report the `ok`/`not ok` result line
with the runner's next id; on a pass bump the pass tally; on a failure
bump the fail tally and report the diagnostic block — operator,
serialized expected/actual, the resolved `at:` line when non-empty, and
the indented stack of the assertion's error (the caught Error itself
when `actual` is an Error, whose message then replaces `actual`).
The model has the owning runner present, as every test the claims
concern is runner-constructed; a runnerless Test in the source skips
both reporting and the tallies (`if (report)`). -/
def Test._assert (env : DiagEnv) (pass : Bool) (actual expected : JSValue)
    (description operator : String) (c : RunCtx) : Res RunCtx :=
  if c.t.done then
    .fatal ("assertion occurred after test was finished: " ++ c.t.name) c
  else
    let afterPlan : Res RunCtx :=
      match c.t._planned with
      | some p =>
        let a2 := c.t._actual.getD 0 + 1
        let c2 := { c with t := { c.t with _actual := some a2 } }
        if p < a2 then
          .fatal ("More tests than planned in TEST *" ++ c.t.name ++ "*") c2
        else .ok c2
      | none => .ok c
    match afterPlan with
    | .fatal m c2 => .fatal m c2
    | .ok c2 =>
      let pfx := if pass then "ok" else "not ok"
      let id := c2._id + 1
      let line := pfx ++ " " ++ toString id ++ " " ++ description
      let c3 := { c2 with _id := id, out := c2.out ++ [line] }
      if pass then
        .ok { c3 with t := { c3.t with passCount := c3.t.passCount + 1 } }
      else
        let errStack := match actual with
          | .errv _ _ st => st
          | _ => env.atErrStack
        let shownActual := match actual with
          | .errv _ m _ => JSValue.str m
          | _ => actual
        let lines := ["  ---", "    operator: " ++ operator]
          ++ diagValueLines expected shownActual
          ++ (if env.atLine != "" then ["    at:       " ++ env.atLine] else [])
          ++ ["    stack:    |-"]
          ++ (errStack.splitOn "\n").map (fun l => "      " ++ l)
          ++ ["  ..."]
        let t4 := { c3.t with failCount := c3.t.failCount + 1 }
        .ok { c3 with out := c3.out ++ lines, t := t4 }

/-- One call of the test function on its `Test`: the strict-mode
description check each assertion method performs, then `_assert` with
that method's arguments; `plan` records the planned count; `comment`
reports a `#` line. -/
def Test.runOp (env : DiagEnv) (c : RunCtx) : TestOp → Res RunCtx
  | .ok actual msg =>
    if c.t.strict && msgFalsy msg then .fatal "tapzero msg required" c
    else Test._assert env (truthy actual) actual (.str "truthy value")
      (orD msg "should be truthy") "ok" c
  | .fail msg =>
    if c.t.strict && msgFalsy msg then .fatal "tapzero msg required" c
    else Test._assert env false (.str "fail called") (.str "fail not called")
      (orD msg "fail called") "fail" c
  | .deepEqualOp actual expected msg =>
    if c.t.strict && msgFalsy msg then .fatal "tapzero msg required" c
    else Test._assert env (deepEqual actual expected) actual expected
      (orD msg "should be equivalent") "deepEqual" c
  | .plan n => .ok { c with t := { c.t with _planned := some n } }
  | .comment msg => .ok { c with out := c.out ++ ["# " ++ msg] }

/-- The calls of the test function in order; a thrown error aborts the
rest. -/
def Test.runOps (env : DiagEnv) : List TestOp → RunCtx → Res RunCtx
  | [], c => .ok c
  | op :: rest, c =>
    match Test.runOp env c op with
    | .fatal m c2 => .fatal m c2
    | .ok c2 => Test.runOps env rest c2

/-- The `caught` binding of `Test.throws` after `fn()` ran: the thrown
value, or the initial `null` when nothing was thrown. -/
def caughtValue : Option JSValue → JSValue
  | some v => v
  | none => .null

/-- `caught.message` as the RegExp branch of `Test.throws` reads it: an
Error's message; reading `.message` off any other thrown value yields
`undefined`, which `RegExp.prototype.test` coerces to the string
`"undefined"`. -/
def caughtMessage : Option JSValue → String
  | some (.errv _ m _) => m
  | _ => "undefined"

/-- `Test.throws` (src/index.ts lines 252-279): a string `expected`
becomes the description and `expected` becomes undefined; strict-mode
description check; `fn` is summarised by the value it throws, if any;
a RegExp `expected` tests the caught error's message (`rtest` stands
for the host's `RegExp.prototype.test`); any other truthy `expected` is
the unsupported-usage fatal; otherwise `_assert` on whether anything
was caught. -/
def Test.throws (rtest : String → String → String → Bool) (env : DiagEnv)
    (fnThrown : Option JSValue) (expected0 : Option JSValue)
    (message0 : Option String) (c : RunCtx) : Res RunCtx :=
  let em : Option JSValue × Option String :=
    match expected0 with
    | some (.str s) => (none, some s)
    | _ => (expected0, message0)
  let expected := em.1
  let message := em.2
  if c.t.strict && msgFalsy message then .fatal "tapzero msg required" c
  else
    let caught := fnThrown
    match expected with
    | some (.regex r src flags) =>
      Test._assert env (caught.isSome && rtest src flags (caughtMessage caught))
        (caughtValue caught) (.regex r src flags)
        (orD message "show throw") "throws" c
    | some e =>
      if truthy e then
        .fatal ("t.throws() not implemented for expected: " ++ typeofStr e) c
      else
        Test._assert env caught.isSome (caughtValue caught) e
          (orD message "show throw") "throws" c
    | none =>
      Test._assert env caught.isSome (caughtValue caught) .undef
        (orD message "show throw") "throws" c

/-- `Test.run` (src/index.ts lines 350-370): report the `# name` comment,
run the test function, set `done`, then fatal when a declared plan was
not reached; otherwise the tally is in the final state's test. -/
def Test.run (env : DiagEnv) (t : Test) (id : Nat) (out : List String) :
    Res RunCtx :=
  match Test.runOps env t.ops ⟨id, out ++ ["# " ++ t.name], t⟩ with
  | .fatal m c => .fatal m c
  | .ok c =>
    let c2 : RunCtx := { c with t := { c.t with done := true } }
    match c2.t._planned with
    | some p =>
      if c2.t._actual.getD 0 < p then
        .fatal ("Test ended before the planned number\n          planned: "
          ++ toString p ++ "\n          actual: "
          ++ toString (c2.t._actual.getD 0) ++ "\n          ") c2
      else .ok c2
    | none => .ok c2

/-- The `TestRunner` state: the two registries, the scheduling guard,
the run-wide assertion id counter, the completion flag and strict mode.
The injected sink is modelled by the output line list the run threads. -/
structure TestRunner where
  tests : List Test
  onlyTests : List Test
  scheduled : Bool
  _id : Nat
  completed : Bool
  strict : Bool

/-- `TestRunner.add`: fatal after completion; otherwise construct the
Test, append it to the exclusive or the normal registry, and ensure one
run is scheduled. -/
def TestRunner.add (r : TestRunner) (name : String) (ops : List TestOp)
    (only : Bool) : Res TestRunner :=
  if r.completed then
    .fatal "Cannot add() a test case after tests completed." r
  else
    let t := Test.mk0 name ops r.strict
    let r2 := if only then { r with onlyTests := r.onlyTests ++ [t] }
      else { r with tests := r.tests ++ [t] }
    .ok { r2 with scheduled := true }

/-- Totals the run loop accumulates across tests, with the runner's id
counter and the sink lines threaded through. -/
structure RunAcc where
  _id : Nat
  out : List String
  total : Nat
  success : Nat
  failed : Nat

/-- The sequential loop of `TestRunner.run`: each test runs to
completion before the next starts; a thrown error ends the run (the
loop does not catch it). -/
def TestRunner.loop (env : DiagEnv) : List Test → RunAcc → Res RunAcc
  | [], acc => .ok acc
  | t :: rest, acc =>
    match Test.run env t acc._id acc.out with
    | .fatal m c => .fatal m { acc with _id := c._id, out := c.out }
    | .ok c =>
      TestRunner.loop env rest
        ⟨c._id, c.out, acc.total + c.t.failCount + c.t.passCount,
          acc.success + c.t.passCount, acc.failed + c.t.failCount⟩

/-- `TestRunner.run` (src/index.ts lines 81-134): pick the exclusive
registry when non-empty, report the TAP header, run the tests in order
accumulating the tallies, mark the runner completed, and report the
summary: a blank line, the plan, the totals, then `# fail` or a blank
line and `# ok`.  The completion callback and the process-exit signal
are outside the sink and not modelled. -/
def TestRunner.run (env : DiagEnv) (r : TestRunner) (out0 : List String) :
    Res (TestRunner × List String) :=
  let ts := if r.onlyTests.length > 0 then r.onlyTests else r.tests
  match TestRunner.loop env ts ⟨r._id, out0 ++ ["TAP version 13"], 0, 0, 0⟩ with
  | .fatal m acc => .fatal m ({ r with _id := acc._id }, acc.out)
  | .ok acc =>
    let r2 := { r with _id := acc._id, completed := true }
    let out1 := acc.out ++ ["", "1.." ++ toString acc.total,
      "# tests " ++ toString acc.total, "# pass  " ++ toString acc.success]
    let out2 := if acc.failed != 0 then out1 ++ ["# fail  " ++ toString acc.failed]
      else out1 ++ ["", "# ok"]
    .ok (r2, out2)

/-- The lines the sink received by the time a run ended, normally or by
a throw. -/
def Res.lines : Res (TestRunner × List String) → List String
  | .ok (_, out) => out
  | .fatal _ (_, out) => out

/-- The error a run threw, when it threw. -/
def Res.fatalMsg : Res (TestRunner × List String) → Option String
  | .ok _ => none
  | .fatal m _ => some m


/-! ## Basic lemmas -/

theorem beqComm {α : Type} [BEq α] [LawfulBEq α] (a b : α) : (a == b) = (b == a) := by
  by_cases h : a = b
  · subst h; rfl
  · have h1 : (a == b) = false := by simp [h]
    have h2 : (b == a) = false := by
      cases hba : (b == a)
      · rfl
      · exact absurd (eq_of_beq hba).symm h
    rw [h1, h2]

theorem numEq_symm (a b : JSNum) : numEq a b = numEq b a := by
  cases a <;> cases b <;> first | rfl | apply beqComm

theorem strictEq_symm (a b : JSValue) : strictEq a b = strictEq b a := by
  cases a <;> cases b <;> first | rfl | apply beqComm | apply numEq_symm

theorem keyMem_iff (k : String) (ks : List String) : keyMem k ks = true ↔ k ∈ ks := by
  induction ks with
  | nil => simp [keyMem]
  | cons k2 ks ih => simp [keyMem, ih]

theorem fieldsSub_iff (fs : List (String × JSValue)) (ks : List String) :
    fieldsSub fs ks = true ↔ ∀ kv ∈ fs, kv.1 ∈ ks := by
  induction fs with
  | nil => simp [fieldsSub]
  | cons kv fs ih =>
    obtain ⟨k, v⟩ := kv
    simp [fieldsSub, keyMem_iff, ih]

theorem nodupKeys_iff (ks : List String) : nodupKeys ks = true ↔ ks.Nodup := by
  induction ks with
  | nil => simp [nodupKeys]
  | cons k ks ih =>
    simp only [nodupKeys, Bool.and_eq_true, Bool.not_eq_true', List.nodup_cons]
    constructor
    · rintro ⟨h1, h2⟩
      refine ⟨fun hm => ?_, ih.mp h2⟩
      rw [(keyMem_iff k ks).mpr hm] at h1
      exact Bool.true_eq_false.mp h1
    · rintro ⟨h1, h2⟩
      refine ⟨?_, ih.mpr h2⟩
      cases hkm : keyMem k ks
      · rfl
      · exact absurd ((keyMem_iff k ks).mp hkm) h1

theorem getField_mem (fs : List (String × JSValue)) (k : String)
    (h : k ∈ fs.map Prod.fst) : (k, getField fs k) ∈ fs := by
  induction fs with
  | nil => simp at h
  | cons kv fs ih =>
    obtain ⟨k2, v⟩ := kv
    by_cases hk : k2 = k
    · subst hk
      simp [getField]
    · have hk2 : (k2 == k) = false := by simp [hk]
      simp only [getField, hk2, Bool.false_eq_true, if_false]
      simp only [List.map_cons, List.mem_cons] at h
      rcases h with h | h
      · exact absurd h.symm hk
      · exact List.mem_cons_of_mem _ (ih h)

theorem getField_eq_of_mem (fs : List (String × JSValue)) (k : String) (v : JSValue)
    (hnd : nodupKeys (fs.map Prod.fst) = true) (h : (k, v) ∈ fs) :
    getField fs k = v := by
  induction fs with
  | nil => simp at h
  | cons kv fs ih =>
    obtain ⟨k2, v2⟩ := kv
    simp only [List.map_cons, nodupKeys, Bool.and_eq_true, Bool.not_eq_true'] at hnd
    simp only [List.mem_cons] at h
    rcases h with h | h
    · obtain ⟨hk, hv⟩ := Prod.mk.injEq .. ▸ h
      subst hk; subst hv
      simp [getField]
    · by_cases hk : k2 = k
      · subst hk
        have : k2 ∈ fs.map Prod.fst := List.mem_map_of_mem Prod.fst h
        rw [(keyMem_iff k2 (fs.map Prod.fst)).mpr this] at hnd
        exact absurd hnd.1 (by simp)
      · have hk2 : (k2 == k) = false := by simp [hk]
        simp only [getField, hk2, Bool.false_eq_true, if_false]
        exact ih hnd.2 h

theorem wfL_mem (xs : List JSValue) (x : JSValue) (h : wfL xs = true)
    (hm : x ∈ xs) : wfV x = true := by
  induction xs with
  | nil => simp at hm
  | cons y ys ih =>
    rw [wfL] at h
    simp only [Bool.and_eq_true] at h
    rcases List.mem_cons.mp hm with hx | hx
    · subst hx; exact h.1
    · exact ih h.2 hx

theorem wfF_mem (fs : List (String × JSValue)) (kv : String × JSValue)
    (h : wfF fs = true) (hm : kv ∈ fs) : wfV kv.2 = true := by
  induction fs with
  | nil => simp at hm
  | cons kv2 fs ih =>
    obtain ⟨k2, v2⟩ := kv2
    rw [wfF] at h
    simp only [Bool.and_eq_true] at h
    rcases List.mem_cons.mp hm with hx | hx
    · subst hx; exact h.1
    · exact ih h.2 hx

theorem deepEqualFields_iff (fs fsb : List (String × JSValue)) :
    deepEqualFields fs fsb = true ↔
      ∀ kv ∈ fs, deepEqual kv.2 (getField fsb kv.1) = true := by
  induction fs with
  | nil => simp [deepEqualFields]
  | cons kv fs ih =>
    obtain ⟨k, v⟩ := kv
    rw [deepEqualFields]
    simp only [Bool.and_eq_true, ih, List.mem_cons]
    constructor
    · rintro ⟨h1, h2⟩ kv2 hm
      rcases hm with hm | hm
      · subst hm; exact h1
      · exact h2 kv2 hm
    · intro h
      exact ⟨h (k, v) (Or.inl rfl), fun kv2 hm => h kv2 (Or.inr hm)⟩

theorem deepEqualList_symm_imp (xs ys : List JSValue)
    (ih : ∀ x ∈ xs, ∀ y ∈ ys, deepEqual x y = true → deepEqual y x = true)
    (h : deepEqualList xs ys = true) : deepEqualList ys xs = true := by
  induction xs generalizing ys with
  | nil =>
    cases ys with
    | nil => exact h
    | cons y ys => simp [deepEqualList] at h
  | cons x xs ihx =>
    cases ys with
    | nil => simp [deepEqualList] at h
    | cons y ys =>
      rw [deepEqualList] at h ⊢
      simp only [Bool.and_eq_true] at h ⊢
      refine ⟨ih x (by simp) y (by simp) h.1, ?_⟩
      exact ihx ys (fun a ha b hb => ih a (by simp [ha]) b (by simp [hb])) h.2

theorem keys_sub_symm (ka kb : List String) (hlen : ka.length = kb.length)
    (hna : ka.Nodup) (hnb : kb.Nodup) (hsub : ∀ k ∈ ka, k ∈ kb) :
    ∀ k ∈ kb, k ∈ ka := by
  have hss : ka.toFinset ⊆ kb.toFinset := by
    intro k hk
    exact List.mem_toFinset.mpr (hsub k (List.mem_toFinset.mp hk))
  have hcard : kb.toFinset.card ≤ ka.toFinset.card := by
    rw [List.toFinset_card_of_nodup hna, List.toFinset_card_of_nodup hnb]
    omega
  have heq := Finset.eq_of_subset_of_card_le hss hcard
  intro k hk
  have : k ∈ ka.toFinset := heq ▸ List.mem_toFinset.mpr hk
  exact List.mem_toFinset.mp this

theorem sizeOf_getField_mem (fs : List (String × JSValue)) (k : String)
    (h : k ∈ fs.map Prod.fst) : sizeOf (getField fs k) < sizeOf fs := by
  have hm := getField_mem fs k h
  have h1 : sizeOf (k, getField fs k) < sizeOf fs := List.sizeOf_lt_of_mem hm
  have h2 : sizeOf (getField fs k) < sizeOf (k, getField fs k) := by
    simp only [Prod.mk.sizeOf_spec]
    omega
  omega

theorem sizeOf_mem_field (fs : List (String × JSValue)) (kv : String × JSValue)
    (h : kv ∈ fs) : sizeOf kv.2 < sizeOf fs := by
  have h1 : sizeOf kv < sizeOf fs := List.sizeOf_lt_of_mem h
  obtain ⟨k, v⟩ := kv
  simp only [Prod.mk.sizeOf_spec] at h1 ⊢
  omega

theorem deepEqual_refl (a : JSValue) : deepEqual a a = true := by
  rw [deepEqual]
  cases a
  case num n => cases n <;> simp [strictEq, numEq, deepEqualBody, jsNaN]
  all_goals simp [strictEq]

theorem deepEqual_symm_imp :
    ∀ (n : Nat) (a b : JSValue), sizeOf a + sizeOf b ≤ n →
      wfV a = true → wfV b = true → deepEqual a b = true → deepEqual b a = true := by
  intro n
  induction n using Nat.strong_induction_on with
  | _ n ih =>
    intro a b hn hwa hwb h
    rw [deepEqual] at h ⊢
    by_cases hs : strictEq a b = true
    · rw [strictEq_symm] at hs
      simp [hs]
    · have hs1 : strictEq a b = false := Bool.eq_false_iff.mpr hs
      have hs2 : strictEq b a = false := (strictEq_symm b a).trans hs1
      rw [hs1] at h
      rw [hs2]
      simp only [Bool.false_eq_true, if_false] at h ⊢
      cases a <;> cases b <;> try (simp [deepEqualBody, jsNaN] at h)
      next n1 n2 =>
        simp [deepEqualBody] at h ⊢
        exact ⟨h.2, h.1⟩
      next r1 ea r2 eb =>
        rw [wfV] at hwa hwb
        simp only [deepEqualBody, Bool.and_eq_true, beq_iff_eq] at h ⊢
        refine ⟨h.1.symm, deepEqualList_symm_imp ea eb ?_ h.2⟩
        intro x hx y hy hxy
        have s1 := List.sizeOf_lt_of_mem hx
        have s2 := List.sizeOf_lt_of_mem hy
        have e1 : sizeOf (JSValue.arr r1 ea) = 1 + sizeOf r1 + sizeOf ea := by simp
        have e2 : sizeOf (JSValue.arr r2 eb) = 1 + sizeOf r2 + sizeOf eb := by simp
        exact ih (sizeOf x + sizeOf y) (by omega) x y le_rfl
          (wfL_mem ea x hwa hx) (wfL_mem eb y hwb hy) hxy
      next r1 s f r2 s2 f2 =>
        simp [deepEqualBody] at h ⊢
        exact ⟨h.1.symm, h.2.symm⟩
      next r1 m st r2 m2 st2 =>
        simp [deepEqualBody] at h ⊢
        exact h.symm
      next ra ca voa soa fsa rb cb vob sob fsb =>
        rw [wfV] at hwa hwb
        simp only [Bool.and_eq_true, Option.isNone_iff_eq_none] at hwa hwb
        obtain ⟨⟨⟨hva, hsa⟩, hnda⟩, hfa⟩ := hwa
        obtain ⟨⟨⟨hvb, hsb⟩, hndb⟩, hfb⟩ := hwb
        subst hva; subst hsa; subst hvb; subst hsb
        by_cases hc : ca = cb
        · subst hc
          simp only [deepEqualBody, bne_self_eq_false, Bool.false_eq_true, if_false,
            Bool.and_eq_true, beq_iff_eq] at h ⊢
          obtain ⟨⟨hlen, hsub⟩, hf⟩ := h
          have hka : (fsa.map Prod.fst).Nodup := (nodupKeys_iff _).mp hnda
          have hkb : (fsb.map Prod.fst).Nodup := (nodupKeys_iff _).mp hndb
          have hsubA : ∀ k ∈ fsa.map Prod.fst, k ∈ fsb.map Prod.fst := by
            intro k hk
            obtain ⟨kv, hkv, rfl⟩ := List.mem_map.mp hk
            exact (fieldsSub_iff fsa _).mp hsub kv hkv
          have hsubB := keys_sub_symm _ _ (by simp [hlen]) hka hkb hsubA
          refine ⟨⟨hlen.symm, ?_⟩, ?_⟩
          · rw [fieldsSub_iff]
            intro kv hm
            exact hsubB kv.1 (List.mem_map_of_mem Prod.fst hm)
          · rw [deepEqualFields_iff]
            intro kv hm
            obtain ⟨k, v⟩ := kv
            have hk_a : k ∈ fsa.map Prod.fst :=
              hsubB k (List.mem_map_of_mem Prod.fst hm)
            have hmem_a : (k, getField fsa k) ∈ fsa := getField_mem fsa k hk_a
            have hforward := (deepEqualFields_iff fsa fsb).mp hf
              (k, getField fsa k) hmem_a
            have hgb : getField fsb k = v := getField_eq_of_mem fsb k v hndb hm
            rw [hgb] at hforward
            have s1 : sizeOf (getField fsa k) < sizeOf fsa := sizeOf_getField_mem fsa k hk_a
            have s2 : sizeOf v < sizeOf fsb := sizeOf_mem_field fsb (k, v) hm
            have e1 : sizeOf (JSValue.object ra ca none none fsa) =
                1 + sizeOf ra + sizeOf ca + 1 + 1 + sizeOf fsa := by simp
            have e2 : sizeOf (JSValue.object rb ca none none fsb) =
                1 + sizeOf rb + sizeOf ca + 1 + 1 + sizeOf fsb := by simp
            exact ih (sizeOf (getField fsa k) + sizeOf v) (by omega)
              (getField fsa k) v le_rfl
              (wfF_mem fsa (k, getField fsa k) hfa hmem_a)
              (wfF_mem fsb (k, v) hfb hm) hforward
        · have hcb : (ca != cb) = true := by simp [hc]
          simp only [deepEqualBody, hcb, if_true] at h
          exact absurd h (by simp)

/-- Symmetry of the comparator on well-formed override-free values, as a
Boolean equality. -/
theorem deepEqual_symm (a b : JSValue) (hwa : wfV a = true) (hwb : wfV b = true) :
    deepEqual a b = deepEqual b a := by
  cases hab : deepEqual a b with
  | true =>
    exact (deepEqual_symm_imp (sizeOf a + sizeOf b) a b le_rfl hwa hwb hab).symm
  | false =>
    cases hba : deepEqual b a with
    | false => rfl
    | true =>
      have := deepEqual_symm_imp (sizeOf b + sizeOf a) b a le_rfl hwb hwa hba
      rw [this] at hab
      exact hab.symm

/-- C1: a runner with an injected sink holding one registered
non-exclusive test "t1" whose function makes a single `ok(true)`
assertion with no description emits exactly the nine lines
`TAP version 13`, `# t1`, `ok 1 should be truthy`, a blank line,
`1..1`, `# tests 1`, `# pass  1`, a blank line, `# ok`, in this order
and nothing else. -/
theorem tz_c1 (env : DiagEnv) :
    TestRunner.run env
      ⟨[Test.mk0 "t1" [TestOp.ok (.bool true) none] false], [], true, 0, false, false⟩ [] =
    Res.ok (⟨[Test.mk0 "t1" [TestOp.ok (.bool true) none] false], [], true, 1, true, false⟩,
      ["TAP version 13", "# t1", "ok 1 should be truthy", "", "1..1",
       "# tests 1", "# pass  1", "", "# ok"]) := rfl

/-- C4 counterexample: the comparator is not symmetric.  With
`a = \x7b\x7d` carrying a `valueOf` override returning `1` and
`b = \x7b\x7d` carrying a `toString` override returning
`"[object Object]"` (both plain `Object` instances, overrides outside
`Object.keys`), `deepEqual(a, b)` is false (the `valueOf` branch
compares `1 === b`) while `deepEqual(b, a)` is true (the `toString`
branch compares `"[object Object]" === "[object Object]"`). -/
theorem tz_c4_counterexample :
    deepEqual (.object 0 "Object" (some (.num (.fin 1))) none [])
        (.object 1 "Object" none (some "[object Object]") []) = false ∧
    deepEqual (.object 1 "Object" none (some "[object Object]") [])
        (.object 0 "Object" (some (.num (.fin 1))) none []) = true := by
  constructor <;> simp [deepEqual, deepEqualBody, strictEq]

/-- C4 amended: the comparator is reflexive on every (non-cyclic)
modelled value, and it is symmetric on well-formed values carrying no
`valueOf`/`toString` coercion override; the symmetry half cannot be
extended to override-carrying values (see the counterexample). -/
theorem tz_c4_amended :
    (∀ a : JSValue, deepEqual a a = true) ∧
    (∀ a b : JSValue, wfV a = true → wfV b = true →
      deepEqual a b = deepEqual b a) :=
  ⟨deepEqual_refl, deepEqual_symm⟩

/-- C9: serializing the absence marker through `toJSON` renders the
bare token `undefined`, both as the whole serialized value and as the
value of a field inside an object (where `JSON.stringify` alone would
produce no output or drop the field). -/
theorem tz_c9 :
    toJSON .undef = "undefined" ∧
    toJSON (.object 0 "Object" none none [("a", .undef)]) =
      "\x7b\n  \"a\": undefined\n\x7d" := by
  constructor <;>
    simp [toJSON, jsonPretty, replaceUndef, replaceUndefF, jsonPrettyEntries,
      quoteStr, escapeChar, jsReplaceAll, listReplace, gap]

/-- C10: the sentinel substitution is not injective: the ordinary
string value `"_tz_undefined_tz_"` serializes to the bare token
`undefined`, the same output as the absence marker itself, at top
level and as a field value. -/
theorem tz_c10 :
    toJSON (.str "_tz_undefined_tz_") = "undefined" ∧
    toJSON (.str "_tz_undefined_tz_") = toJSON .undef ∧
    toJSON (.object 0 "Object" none none [("a", .str "_tz_undefined_tz_")]) =
      toJSON (.object 0 "Object" none none [("a", .undef)]) := by
  refine ⟨?_, ?_, ?_⟩ <;>
    simp [toJSON, jsonPretty, replaceUndef, replaceUndefF, jsonPrettyEntries,
      quoteStr, escapeChar, jsReplaceAll, listReplace, gap]

/-- C5 amended: the diagnostic block wraps the serialized expected and
actual values in block-literal style exactly when the LONGER of the two
serialized strings runs over 65 characters
(`Math.max(ex.length, ac.length) > 65`), not their combined length;
otherwise both render inline. -/
theorem tz_c5_amended (e a : JSValue) :
    (65 < max (toJSON e).length (toJSON a).length →
      diagValueLines e a =
        ["    expected: |-\n      " ++ jsReplaceAll (toJSON e) "\n" "\n      ",
         "    actual:   |-\n      " ++ jsReplaceAll (toJSON a) "\n" "\n      "]) ∧
    (max (toJSON e).length (toJSON a).length ≤ 65 →
      diagValueLines e a =
        ["    expected: " ++ toJSON e, "    actual:   " ++ toJSON a]) := by
  constructor <;> intro h <;> simp only [diagValueLines]
  · rw [if_pos h]
  · rw [if_neg (by omega)]

/-- C5 counterexample: two serialized values of 40 characters each have
combined length 80, over 65, yet the diagnostic block renders them
inline (the code wraps on `max`, 40, which does not exceed 65) — the
first reported line is not block-literal style. -/
theorem tz_c5_counterexample :
    65 < (toJSON (.str "xxxxxxxxxxxxxxxxxxxxxxxxxxxxxxxxxxxxxx")).length
        + (toJSON (.str "yyyyyyyyyyyyyyyyyyyyyyyyyyyyyyyyyyyyyy")).length ∧
    diagValueLines (.str "xxxxxxxxxxxxxxxxxxxxxxxxxxxxxxxxxxxxxx")
        (.str "yyyyyyyyyyyyyyyyyyyyyyyyyyyyyyyyyyyyyy") =
      ["    expected: \"xxxxxxxxxxxxxxxxxxxxxxxxxxxxxxxxxxxxxx\"",
       "    actual:   \"yyyyyyyyyyyyyyyyyyyyyyyyyyyyyyyyyyyyyy\""] := by
  have hx : toJSON (.str "xxxxxxxxxxxxxxxxxxxxxxxxxxxxxxxxxxxxxx") =
      "\"xxxxxxxxxxxxxxxxxxxxxxxxxxxxxxxxxxxxxx\"" := by
    simp [toJSON, jsonPretty, replaceUndef, quoteStr, escapeChar,
      jsReplaceAll, listReplace]
  have hy : toJSON (.str "yyyyyyyyyyyyyyyyyyyyyyyyyyyyyyyyyyyyyy") =
      "\"yyyyyyyyyyyyyyyyyyyyyyyyyyyyyyyyyyyyyy\"" := by
    simp [toJSON, jsonPretty, replaceUndef, quoteStr, escapeChar,
      jsReplaceAll, listReplace]
  refine ⟨?_, ?_⟩
  · rw [hx, hy]; decide
  · simp only [diagValueLines, hx, hy]
    rw [if_neg (by decide)]
    rfl

/-- C2: under a declared plan of `p`, an assertion call that would push
the actual count past `p` throws the fatal plan error with the sink
unchanged (the state the throw leaves carries the caller's output
lines, so no result line for that assertion is ever reported), and
every assertion call that returns normally leaves the actual count at
most `p`. -/
theorem tz_c2 (env : DiagEnv) (pass : Bool) (actual expected : JSValue)
    (d op : String) (c : RunCtx) (p : Nat)
    (hdone : c.t.done = false) (hplan : c.t._planned = some p) :
    (p < c.t._actual.getD 0 + 1 →
      Test._assert env pass actual expected d op c =
        Res.fatal ("More tests than planned in TEST *" ++ c.t.name ++ "*")
          { c with t := { c.t with _actual := some (c.t._actual.getD 0 + 1) } }) ∧
    (∀ c2, Test._assert env pass actual expected d op c = Res.ok c2 →
      c2.t._actual.getD 0 ≤ p) := by
  unfold Test._assert
  rw [hdone, hplan]
  simp only [Bool.false_eq_true, if_false]
  constructor
  · intro hov
    rw [if_pos hov]
  · intro c2 h2
    by_cases hov : p < c.t._actual.getD 0 + 1
    · rw [if_pos hov] at h2
      exact absurd h2 (by simp)
    · rw [if_neg hov] at h2
      cases pass
      · simp only [Bool.false_eq_true, if_false] at h2
        cases h2
        simp
        omega
      · simp only [if_true] at h2
        cases h2
        simp
        omega

/-- C7 counterexample: with no plan declared, an assertion call does not
touch the actual count — after one `ok(true)` assertion on a fresh test
the count is still unset (`null`), not 1, so the count is not
"incremented on every assertion call regardless of a plan". -/
theorem tz_c7_counterexample :
    (match Test._assert ⟨"", ""⟩ true (.bool true) (.str "truthy value")
        "should be truthy" "ok" ⟨0, [], Test.mk0 "t" [] false⟩ with
      | .ok c => c.t._actual
      | .fatal _ c => c.t._actual) = none := rfl

/-- C7 amended: the actual count starts unset, and an assertion call
that returns normally increments it by one exactly when a plan is
declared at the time of the call; with no plan declared it is left
untouched (`_assert` only counts inside `if (this._planned !== null)`). -/
theorem tz_c7_amended (env : DiagEnv) (pass : Bool) (actual expected : JSValue)
    (d op name : String) (ops : List TestOp) (strict : Bool) (c c2 : RunCtx)
    (h : Test._assert env pass actual expected d op c = Res.ok c2) :
    (Test.mk0 name ops strict)._actual = none ∧
    c2.t._actual = (if c.t._planned.isSome then some (c.t._actual.getD 0 + 1)
      else c.t._actual) := by
  refine ⟨rfl, ?_⟩
  unfold Test._assert at h
  by_cases hdone : c.t.done = true
  · rw [if_pos hdone] at h
    exact absurd h (by simp)
  · rw [if_neg hdone] at h
    cases hp : c.t._planned with
    | some p =>
      simp only [hp] at h
      simp only [Option.isSome_some, if_true]
      by_cases hov : p < c.t._actual.getD 0 + 1
      · rw [if_pos hov] at h
        exact absurd h (by simp)
      · rw [if_neg hov] at h
        cases pass
        · simp only [Bool.false_eq_true, if_false] at h
          cases h
          rfl
        · simp only [if_true] at h
          cases h
          rfl
    | none =>
      simp only [hp] at h
      simp only [Option.isSome_none, Bool.false_eq_true, if_false]
      cases pass
      · simp only [Bool.false_eq_true, if_false] at h
        cases h
        rfl
      · simp only [if_true] at h
        cases h
        rfl

/-- C2 witness: after `plan(2)` with two assertions already made, a
third assertion call throws the plan error and the sink still holds
only the lines present before the call. -/
theorem tz_c2_witness :
    Test._assert ⟨"", ""⟩ true (.bool true) (.str "truthy value") "d" "ok"
      ⟨0, ["# t"], ⟨"t", [], some 2, some 2, 2, 0, false, false⟩⟩ =
    Res.fatal "More tests than planned in TEST *t*"
      ⟨0, ["# t"], ⟨"t", [], some 2, some 3, 2, 0, false, false⟩⟩ :=
  (tz_c2 ⟨"", ""⟩ true (.bool true) (.str "truthy value") "d" "ok"
    ⟨0, ["# t"], ⟨"t", [], some 2, some 2, 2, 0, false, false⟩⟩ 2 rfl rfl).1 (by decide)

/-- C7 witness: one passing `ok(true)` on a fresh unplanned test leaves
the actual count unset. -/
theorem tz_c7_witness :
    (Test.mk0 "t" [] false)._actual = none ∧
    (⟨1, ["ok 1 should be truthy"],
      ⟨"t", [], none, none, 1, 0, false, false⟩⟩ : RunCtx).t._actual = none :=
  tz_c7_amended ⟨"", ""⟩ true (.bool true) (.str "truthy value")
    "should be truthy" "ok" "t" [] false ⟨0, [], Test.mk0 "t" [] false⟩
    ⟨1, ["ok 1 should be truthy"], ⟨"t", [], none, none, 1, 0, false, false⟩⟩ rfl

/-- C8: a test whose function completes with a declared plan not yet
reached makes `Test.run` throw the "ended before planned" error, with
the test already marked done in the state the throw leaves. -/
theorem tz_c8 (env : DiagEnv) (t : Test) (id : Nat) (out : List String)
    (c : RunCtx) (p : Nat)
    (h : Test.runOps env t.ops ⟨id, out ++ ["# " ++ t.name], t⟩ = Res.ok c)
    (hp : c.t._planned = some p) (hlt : c.t._actual.getD 0 < p) :
    Test.run env t id out =
      Res.fatal ("Test ended before the planned number\n          planned: "
        ++ toString p ++ "\n          actual: "
        ++ toString (c.t._actual.getD 0) ++ "\n          ")
        { c with t := { c.t with done := true } } := by
  unfold Test.run
  rw [h]
  simp only [hp]
  rw [if_pos hlt]

/-- C8 witness: `plan(2)` with one assertion made; `run()` throws the
ended-before-planned error after marking the test done. -/
theorem tz_c8_witness :
    Test.run ⟨"", ""⟩ (Test.mk0 "t" [TestOp.plan 2, TestOp.ok (.bool true) none] false) 0 [] =
      Res.fatal "Test ended before the planned number\n          planned: 2\n          actual: 1\n          "
        ⟨1, ["# t", "ok 1 should be truthy"],
          ⟨"t", [TestOp.plan 2, TestOp.ok (.bool true) none],
            some 2, some 1, 1, 0, true, false⟩⟩ :=
  tz_c8 ⟨"", ""⟩ (Test.mk0 "t" [TestOp.plan 2, TestOp.ok (.bool true) none] false) 0 []
    ⟨1, ["# t", "ok 1 should be truthy"],
      ⟨"t", [TestOp.plan 2, TestOp.ok (.bool true) none],
        some 2, some 1, 1, 0, false, false⟩⟩ 2 rfl rfl (by decide)

/-- C6 counterexample: `t.throws(fn, expected)` with a present,
non-RegExp `expected` — the string `"oops"` — does not throw: the
string is taken as the description and an ordinary assertion result is
recorded. -/
theorem tz_c6_counterexample :
    Test.throws (fun _ _ _ => false) ⟨"", ""⟩ (some (.errv 0 "boom" ""))
      (some (.str "oops")) none ⟨0, [], Test.mk0 "t" [] false⟩ =
    Res.ok ⟨1, ["ok 1 oops"], ⟨"t", [], none, none, 1, 0, false, false⟩⟩ := rfl

/-- C6 amended: with the strict-mode description check passing,
`t.throws(fn, expected)` with a present `expected` raises the
unsupported-usage fatal exactly when `expected` is truthy, not a string
and not a RegExp (fourth conjunct); every other shape records an
ordinary assertion through `_assert`: a string `expected` becomes the
description and `expected` turns absent (first conjunct), a RegExp
`expected` tests the caught error's message (second conjunct), and a
falsy non-string `expected` is ignored, passed through as the reported
expectation (third conjunct). -/
theorem tz_c6_amended (rtest : String → String → String → Bool) (env : DiagEnv)
    (fnThrown : Option JSValue) (c : RunCtx) :
    (∀ s message0, (c.t.strict && msgFalsy (some s)) = false →
      Test.throws rtest env fnThrown (some (.str s)) message0 c =
        Test._assert env fnThrown.isSome (caughtValue fnThrown) .undef
          (orD (some s) "show throw") "throws" c) ∧
    (∀ r src flags message, (c.t.strict && msgFalsy message) = false →
      Test.throws rtest env fnThrown (some (.regex r src flags)) message c =
        Test._assert env (fnThrown.isSome && rtest src flags (caughtMessage fnThrown))
          (caughtValue fnThrown) (.regex r src flags)
          (orD message "show throw") "throws" c) ∧
    (∀ e message, truthy e = false → (∀ s, e ≠ JSValue.str s) →
      (c.t.strict && msgFalsy message) = false →
      Test.throws rtest env fnThrown (some e) message c =
        Test._assert env fnThrown.isSome (caughtValue fnThrown) e
          (orD message "show throw") "throws" c) ∧
    (∀ e message, truthy e = true → (∀ s, e ≠ JSValue.str s) →
      (∀ r src flags, e ≠ JSValue.regex r src flags) →
      (c.t.strict && msgFalsy message) = false →
      Test.throws rtest env fnThrown (some e) message c =
        Res.fatal ("t.throws() not implemented for expected: " ++ typeofStr e) c) := by
  refine ⟨?_, ?_, ?_, ?_⟩
  · intro s message0 hmsg
    simp only [Test.throws, hmsg, Bool.false_eq_true, if_false]
  · intro r src flags message hmsg
    simp only [Test.throws, hmsg, Bool.false_eq_true, if_false]
  · intro e message htru hstr hmsg
    cases e <;>
      first
      | (exact absurd rfl (hstr _))
      | (simp_all [Test.throws, truthy])
  · intro e message htru hstr hre hmsg
    cases e <;>
      first
      | (exact absurd rfl (hstr _))
      | (exact absurd rfl (hre _ _ _))
      | (simp_all [Test.throws, truthy])

/-- C6 witness: `t.throws(fn, 1)` — a present, truthy, non-string,
non-RegExp expectation — throws the unsupported-usage error. -/
theorem tz_c6_witness :
    Test.throws (fun _ _ _ => false) ⟨"", ""⟩ none (some (.num (.fin 1))) none
      ⟨0, [], Test.mk0 "t" [] false⟩ =
    Res.fatal "t.throws() not implemented for expected: number"
      ⟨0, [], Test.mk0 "t" [] false⟩ :=
  (tz_c6_amended (fun _ _ _ => false) ⟨"", ""⟩ none
      ⟨0, [], Test.mk0 "t" [] false⟩).2.2.2 (.num (.fin 1)) none rfl
    (fun _ h => JSValue.noConfusion h)
    (fun _ _ _ h => JSValue.noConfusion h) rfl

/-- C3: when the exclusive registry is non-empty, `run()` behaves
exactly as it would with the normal registry empty — same sink lines,
same thrown error if any, so the non-exclusive tests produce no output
and contribute nothing to the tallies — and the run leaves both
registries stored unchanged. -/
theorem tz_c3 (env : DiagEnv) (r : TestRunner) (out0 : List String)
    (h : r.onlyTests ≠ []) :
    Res.lines (TestRunner.run env r out0) =
      Res.lines (TestRunner.run env { r with tests := [] } out0) ∧
    Res.fatalMsg (TestRunner.run env r out0) =
      Res.fatalMsg (TestRunner.run env { r with tests := [] } out0) ∧
    (∀ r2 out2, TestRunner.run env r out0 = Res.ok (r2, out2) →
      r2.tests = r.tests ∧ r2.onlyTests = r.onlyTests) := by
  have hl : 0 < r.onlyTests.length := List.length_pos.mpr h
  have hl2 : 0 < ({ r with tests := ([] : List Test) }).onlyTests.length := hl
  unfold TestRunner.run
  rw [if_pos hl, if_pos hl2]
  cases hloop : TestRunner.loop env r.onlyTests
      ⟨r._id, out0 ++ ["TAP version 13"], 0, 0, 0⟩ with
  | fatal m acc =>
    simp only [hloop]
    refine ⟨rfl, rfl, ?_⟩
    intro r2 out2 h2
    exact absurd h2 (by simp)
  | ok acc =>
    simp only [hloop]
    refine ⟨rfl, rfl, ?_⟩
    intro r2 out2 h2
    simp only [Res.ok.injEq, Prod.mk.injEq] at h2
    obtain ⟨h3, _⟩ := h2
    rw [← h3]
    exact ⟨rfl, rfl⟩

/-- C3 witness: one exclusive test beside two normal tests — the run
equals the run with the normal registry empty and the registries are
retained. -/
theorem tz_c3_witness :
    Res.lines (TestRunner.run ⟨"", ""⟩
        ⟨[Test.mk0 "a" [TestOp.ok (.bool true) none] false,
          Test.mk0 "b" [TestOp.ok (.bool true) none] false],
         [Test.mk0 "x" [TestOp.ok (.bool true) none] false],
         true, 0, false, false⟩ []) =
      Res.lines (TestRunner.run ⟨"", ""⟩
        ⟨[],
         [Test.mk0 "x" [TestOp.ok (.bool true) none] false],
         true, 0, false, false⟩ []) ∧
    Res.fatalMsg (TestRunner.run ⟨"", ""⟩
        ⟨[Test.mk0 "a" [TestOp.ok (.bool true) none] false,
          Test.mk0 "b" [TestOp.ok (.bool true) none] false],
         [Test.mk0 "x" [TestOp.ok (.bool true) none] false],
         true, 0, false, false⟩ []) =
      Res.fatalMsg (TestRunner.run ⟨"", ""⟩
        ⟨[],
         [Test.mk0 "x" [TestOp.ok (.bool true) none] false],
         true, 0, false, false⟩ []) ∧
    (∀ r2 out2, TestRunner.run ⟨"", ""⟩
        ⟨[Test.mk0 "a" [TestOp.ok (.bool true) none] false,
          Test.mk0 "b" [TestOp.ok (.bool true) none] false],
         [Test.mk0 "x" [TestOp.ok (.bool true) none] false],
         true, 0, false, false⟩ [] = Res.ok (r2, out2) →
      r2.tests = [Test.mk0 "a" [TestOp.ok (.bool true) none] false,
          Test.mk0 "b" [TestOp.ok (.bool true) none] false] ∧
      r2.onlyTests = [Test.mk0 "x" [TestOp.ok (.bool true) none] false]) :=
  tz_c3 ⟨"", ""⟩
    ⟨[Test.mk0 "a" [TestOp.ok (.bool true) none] false,
      Test.mk0 "b" [TestOp.ok (.bool true) none] false],
     [Test.mk0 "x" [TestOp.ok (.bool true) none] false],
     true, 0, false, false⟩ [] (by simp)
